import Mathlib

/-!
# Nest-Interface: the live-entity synchronisation engine of `src/app.jsx`

A shallow embedding of the polling effect of the `Root` component: the
reconciliation of a fetched snapshot against the held entity set
(lines 114-119), and the fetch chain with its cleanup (lines 106-136) as a
transition system over explicit state.
-/

namespace NestInterface

/-! ## Data model -/

/-- A scalar of a parsed JSON state vector. Numbers are the integer-valued
ones of the safe-integer range: their property-key form is the decimal
numeral. -/
inductive Field where
  | null
  | bool (b : Bool)
  | num (n : Int)
  | str (s : String)
  deriving DecidableEq

/-- One state vector of the feed: a JSON array of fields. -/
abbrev Record := List Field

/-- The position of the identifier in a state vector: `DATA_INDEX.UNIQUE_ID`
(line 46). -/
def DATA_INDEX.UNIQUE_ID : Nat := 0

/-- Polling period in milliseconds (line 39). -/
def REFRESH_TIME : Nat := 30000

/-- Conversion of an indexed value to a property key, as performed by
`dataAsObj[...]`: an index past the end of the array reads `undefined`. -/
def toPropertyKey : Option Field → String
  | none => "undefined"
  | some Field.null => "null"
  | some (Field.bool true) => "true"
  | some (Field.bool false) => "false"
  | some (Field.num n) => toString n
  | some (Field.str s) => s

/-- The key under which a record is filed: `entry[DATA_INDEX.UNIQUE_ID]`
used as a property name. Two records have the same identifier, for the
lookup of line 118, when they have the same key. -/
def uniqueId (entry : Record) : String :=
  toPropertyKey entry[DATA_INDEX.UNIQUE_ID]?

/-! ## The objects behind `dataAsObj[...]` -/

/-- The built-in prototype on which a function-valued member lives. -/
inductive Home where
  | objectPrototype
  | arrayPrototype
  deriving DecidableEq

/-- What a slot of the held sequence can carry. A record is what the feed
sends; the others are what the lookup of line 118 can read through the
prototype chain of `dataAsObj`: an element or the length of an array, a
built-in function, or the object prototype itself. -/
inductive Value where
  | record (r : Record)
  | string (s : String)
  | number (n : Int)
  | boolean (b : Bool)
  | member (home : Home) (name : String)
  | objectPrototype
  deriving DecidableEq

/-- Truthiness, as tested by `||`: arrays, functions and objects are truthy,
as are non-empty strings, non-zero numbers and `true`. -/
def Value.truthy : Value → Bool
  | Value.record _ => true
  | Value.string s => s ≠ ""
  | Value.number n => n ≠ 0
  | Value.boolean b => b
  | Value.member _ _ => true
  | Value.objectPrototype => true

/-- An array element as a value; `none` for `null`, which like `undefined`
is falsy. -/
def Field.toValue : Field → Option Value
  | Field.null => none
  | Field.bool b => some (Value.boolean b)
  | Field.num n => some (Value.number n)
  | Field.str s => some (Value.string s)

/-- A property key. Besides the names, the key read by indexing a string
whose first character lies outside the Basic Multilingual Plane: a lone
surrogate, which is the name of no property here. -/
inductive Key where
  | name (s : String)
  | surrogate
  deriving DecidableEq

/-- The key `entry[DATA_INDEX.UNIQUE_ID]` of a held entry. A record is filed
under the key of its field 0; a string reads its first code unit; a number,
a boolean, a function and the object prototype have no property `0` and read
`undefined`. -/
def entryKey : Value → Key
  | Value.record r => Key.name (uniqueId r)
  | Value.string s =>
    match s.data with
    | [] => Key.name "undefined"
    | c :: _ => if c.toNat < 65536 then Key.name (String.singleton c) else Key.surrogate
  | _ => Key.name "undefined"

/-- The names of the function-valued members of `Object.prototype`. Its one
other member, the accessor `__proto__`, is treated by `Obj.set` and
`Obj.get`. -/
def objectPrototypeMembers : List String :=
  ["constructor", "hasOwnProperty", "isPrototypeOf", "propertyIsEnumerable",
   "toLocaleString", "toString", "valueOf", "__defineGetter__", "__defineSetter__",
   "__lookupGetter__", "__lookupSetter__"]

/-- The names of the function-valued members of `Array.prototype`, as of
ECMAScript 2023. -/
def arrayPrototypeMembers : List String :=
  ["constructor", "at", "concat", "copyWithin", "fill", "find", "findIndex", "findLast",
   "findLastIndex", "lastIndexOf", "pop", "push", "reverse", "shift", "unshift", "slice",
   "sort", "splice", "includes", "indexOf", "join", "keys", "entries", "values", "forEach",
   "filter", "flat", "flatMap", "map", "every", "some", "reduce", "reduceRight",
   "toLocaleString", "toString", "toReversed", "toSorted", "toSpliced", "with"]

/-- A read of `Object.prototype[k]` for a name other than `__proto__`. -/
def objectPrototypeGet (k : String) : Option Value :=
  if k ∈ objectPrototypeMembers then some (Value.member Home.objectPrototype k) else none

/-- A read of `Array.prototype[k]`, continuing on `Object.prototype`. The
`length` of `Array.prototype` is never reached: the array in front of it has
its own. -/
def arrayPrototypeGet (k : String) : Option Value :=
  if k ∈ arrayPrototypeMembers then some (Value.member Home.arrayPrototype k)
  else objectPrototypeGet k

/-- The own properties of the array `a`: `length`, and the element at a
canonical numeric index below it. `none` when there is no such property or
when the element is `null`. -/
def arrayOwn (a : Record) (k : String) : Option Value :=
  if k = "length" then some (Value.number a.length)
  else
    match (List.range a.length).find? (fun i => toString i = k) with
    | some i =>
      match a[i]? with
      | some f => f.toValue
      | none => none
    | none => none

/-- The object `dataAsObj`: its own properties, a finite map from names to
records, and its prototype, which is `Object.prototype` (`none`) until an
assignment to `__proto__` puts a record in its place. -/
structure Obj where
  own : String → Option Record
  proto : Option Record

/-- The literal `{}` (line 116): no own property, prototype
`Object.prototype`. -/
def Obj.empty : Obj := { own := fun _ => none, proto := none }

/-- The assignment `dataAsObj[key] = entry` (line 117). The key `__proto__`
reaches the setter inherited from `Object.prototype`, which makes the array
`entry` the prototype of `dataAsObj`; any other key creates or replaces an
own property, the properties along the prototype chain being writable data
properties. -/
def Obj.set (o : Obj) (key : String) (entry : Record) : Obj :=
  if key = "__proto__" then { o with proto := some entry }
  else { o with own := fun k => if k = key then some entry else o.own k }

/-- The read `dataAsObj[key]` (line 118); `none` is `undefined` or `null`.
The key `__proto__` reaches the inherited getter, which returns the
prototype. Any other name is looked up among the own properties, then along
the prototype chain: `Object.prototype`, or a record put in its place
followed by `Array.prototype` and `Object.prototype`. A `null` element of
that record reads as `none`, which stops the chain there all the same: no
member of the prototypes has a numeric name. -/
def Obj.get (o : Obj) : Key → Option Value
  | Key.surrogate => none
  | Key.name k =>
    if k = "__proto__" then
      match o.proto with
      | some a => some (Value.record a)
      | none => some Value.objectPrototype
    else
      match o.own k with
      | some r => some (Value.record r)
      | none =>
        match o.proto with
        | some a =>
          match arrayOwn a k with
          | some v => some v
          | none => arrayPrototypeGet k
        | none => objectPrototypeGet k

/-- The loop `sortedData.forEach(entry => (dataAsObj[entry[UNIQUE_ID]] = entry))`
(line 117). -/
def buildObj (sortedData : List Record) : Obj :=
  sortedData.foldl (fun o entry => o.set (uniqueId entry) entry) Obj.empty

/-- Reconciliation of the fetch handler (lines 114-119). `data` is the held
sequence (`none` is `null`, before the first population), `states` the
incoming snapshot. Each slot is `dataAsObj[entry[UNIQUE_ID]] || entry`. -/
def reconcile (data : Option (List Value)) (states : List Record) : List Value :=
  match data with
  | none => states.map Value.record
  | some data =>
    let dataAsObj := buildObj states
    data.map (fun entry =>
      match dataAsObj.get (entryKey entry) with
      | some found => if found.truthy then found else entry
      | none => entry)

/-- A held set of feed records, as the sequence of values the component
holds. -/
def held (previous : List Record) : List Value :=
  previous.map Value.record

/-- A name that no member of the object prototype carries. -/
def PlainKey (k : String) : Prop :=
  k ≠ "__proto__" ∧ k ∉ objectPrototypeMembers

/-! ## The polling effect (lines 103-136) -/

/-- The value of `timer.id`: `undefined` on the initial `{}`, the timeout
handle on an object made by `setTimer({ id: ... })`, `null` once the cleanup
has run. -/
inductive TimerId where
  | undefined
  | null
  | handle (h : Nat)
  deriving DecidableEq

/-- The object held in the `timer` state and closed over by the effect. -/
structure Timer where
  id : TimerId
  nextTimeoutId : Option Nat
  deriving DecidableEq

/-- The parsed body handed to the second `.then`: `states` is `none` when the
field is missing or `null`. -/
structure Response where
  states : Option (List Record)
  deriving DecidableEq

/-- How the chain `fetch(DATA_URL).then(resp => resp.json())` settles: with a
parsed value (`none` is a falsy body such as `null`), or with a rejection of
the network call or of the parse. -/
inductive Outcome where
  | resolved (resp : Option Response)
  | rejected
  deriving DecidableEq

/-- An update callback invoked by the handler. -/
inductive Call where
  | setData (sortedData : List Value)
  | onDataLoad (length : Nat)
  deriving DecidableEq

/-- State of the component around one run of the effect. -/
structure Root where
  /-- the component is mounted -/
  mounted : Bool
  /-- the `data` state: the held entity set, as last given to `setData` -/
  data : Option (List Value)
  /-- the `data` closed over by the running effect -/
  captured : Option (List Value)
  /-- the `timer` object closed over by the running effect -/
  timer : Timer
  /-- the effect's fetch has not settled yet -/
  pending : Bool
  /-- armed timeouts: handle and delay in milliseconds -/
  timeouts : List (Nat × Nat)
  /-- the handle the next `setTimeout` returns -/
  nextHandle : Nat
  /-- the `onDataLoad` prop is given -/
  hasOnDataLoad : Bool
  /-- the update callbacks invoked so far, oldest first -/
  calls : List Call
  deriving DecidableEq

/-- The second `.then` handler (lines 109-127). -/
def onResponse (s : Root) (resp : Option Response) : Root :=
  match resp with
  | some { states := some states } =>
    if s.timer.id ≠ TimerId.null then
      let sortedData := reconcile s.captured states
      let s1 := { s with data := some sortedData, calls := s.calls ++ [Call.setData sortedData] }
      if s.hasOnDataLoad then
        { s1 with calls := s1.calls ++ [Call.onDataLoad sortedData.length] }
      else s1
    else s
  | _ => s

/-- The `.finally` handler (lines 128-130): arms a timeout of `REFRESH_TIME`
and stores its handle in `timer.nextTimeoutId`. -/
def onFinally (s : Root) : Root :=
  { s with
    timer := { s.timer with nextTimeoutId := some s.nextHandle }
    timeouts := s.timeouts ++ [(s.nextHandle, REFRESH_TIME)]
    nextHandle := s.nextHandle + 1 }

/-- The call `clearTimeout(id)`: a handle that is `undefined` or not armed
clears nothing. -/
def clearTimeout (timeouts : List (Nat × Nat)) (id : Option Nat) : List (Nat × Nat) :=
  match id with
  | none => timeouts
  | some h => timeouts.filter (fun t => t.1 ≠ h)

/-- The cleanup returned by the effect (lines 132-135). -/
def cleanup (s : Root) : Root :=
  { s with
    timeouts := clearTimeout s.timeouts s.timer.nextTimeoutId
    timer := { s.timer with id := TimerId.null } }

/-- A run of the effect body (lines 106-131) on the object now held in the
`timer` state: the closure captures the current `data` and starts a fetch. -/
def runEffect (s : Root) (timer : Timer) : Root :=
  { s with timer := timer, captured := s.data, pending := true }

/-- The timeout callback `() => setTimer({ id: timer.nextTimeoutId })`
(line 129). On a mounted component the new `timer` object changes the
dependency `[timer]`: the cleanup of the previous run is called, then the
effect runs again. On an unmounted component the state update does nothing. -/
def onTimeout (s : Root) : Root :=
  if s.mounted then
    let id := match s.timer.nextTimeoutId with
      | some h => TimerId.handle h
      | none => TimerId.undefined
    runEffect (cleanup s) { id := id, nextTimeoutId := none }
  else s

/-- What can happen to the component. -/
inductive Event where
  /-- the fetch chain of the running effect settles -/
  | settle (o : Outcome)
  /-- the armed timeout with this handle elapses -/
  | fire (h : Nat)
  /-- the component unmounts: the effect cleanup (stop) runs -/
  | unmount
  deriving DecidableEq

/-- One transition. A fulfilled chain runs the handler and then `.finally`;
a rejected one skips the handler and runs `.finally` alone. -/
def step (s : Root) : Event → Root
  | Event.settle o =>
    if s.pending then
      match o with
      | Outcome.resolved resp => onFinally (onResponse { s with pending := false } resp)
      | Outcome.rejected => onFinally { s with pending := false }
    else s
  | Event.fire h =>
    if s.timeouts.any (fun t => t.1 = h) then
      onTimeout { s with timeouts := s.timeouts.filter (fun t => t.1 ≠ h) }
    else s
  | Event.unmount =>
    if s.mounted then cleanup { s with mounted := false } else s

/-- A sequence of transitions. -/
def run (s : Root) (events : List Event) : Root :=
  events.foldl step s

/-- The component at mount: `useState(null)`, `useState({})`, and the first
run of the effect. -/
def mount (hasOnDataLoad : Bool) : Root :=
  { mounted := true
    data := none
    captured := none
    timer := { id := TimerId.undefined, nextTimeoutId := none }
    pending := true
    timeouts := []
    nextHandle := 1
    hasOnDataLoad := hasOnDataLoad
    calls := [] }

/-- The states a component passes through after its mount. -/
def Reachable (s : Root) : Prop :=
  ∃ (b : Bool) (events : List Event), s = run (mount b) events

/-- The timeouts of a component: none is armed while a fetch is pending, and
at most one, the one last armed by `.finally`, otherwise. -/
def TimerInv (s : Root) : Prop :=
  (s.pending = true → s.timeouts = [] ∧ s.timer.nextTimeoutId = none) ∧
  (s.pending = false → s.timeouts = [] ∨
    ∃ h, s.timeouts = [(h, REFRESH_TIME)] ∧ s.timer.nextTimeoutId = some h)


/-! ## Reconciliation: what the loop of line 117 leaves in `dataAsObj` -/

/-- A register that every hit overwrites ends up holding the last hit. -/
theorem foldl_last_hit {σ : Type} (upd : σ → Record → σ) (reg : σ → Option Record)
    (hit : Record → Prop)
    (hupd : ∀ s e, (hit e → reg (upd s e) = some e) ∧ (¬ hit e → reg (upd s e) = reg s))
    (xs : List Record) (s : σ) :
    ((∀ r ∈ xs, ¬ hit r) → reg (xs.foldl upd s) = reg s) ∧
    ((∃ r ∈ xs, hit r) →
      ∃ pre r post, xs = pre ++ r :: post ∧ hit r ∧ (∀ q ∈ post, ¬ hit q) ∧
        reg (xs.foldl upd s) = some r) := by
  induction xs generalizing s with
  | nil =>
    refine ⟨fun _ => rfl, fun h => ?_⟩
    obtain ⟨r, hr, _⟩ := h
    simp at hr
  | cons x t ih =>
    obtain ⟨ihabs, ihpres⟩ := ih (upd s x)
    constructor
    · intro h
      have hx : ¬ hit x := h x (List.mem_cons_self x t)
      have ht : ∀ r ∈ t, ¬ hit r := fun r hr => h r (List.mem_cons_of_mem x hr)
      rw [List.foldl_cons, ihabs ht]
      exact (hupd s x).2 hx
    · intro h
      by_cases ht : ∃ r ∈ t, hit r
      · obtain ⟨pre, r, post, hsplit, hr, hpost, hval⟩ := ihpres ht
        exact ⟨x :: pre, r, post, by simp [hsplit], hr, hpost, by simpa using hval⟩
      · have hnone : ∀ r ∈ t, ¬ hit r := fun r hr hk => ht ⟨r, hr, hk⟩
        have hx : hit x := by
          obtain ⟨r, hr, hk⟩ := h
          rcases List.mem_cons.mp hr with rfl | hr
          · exact hk
          · exact absurd hk (hnone r hr)
        refine ⟨[], x, t, rfl, hx, hnone, ?_⟩
        rw [List.foldl_cons, ihabs hnone]
        exact (hupd s x).1 hx

/-- An assignment sets the own property of its key, unless the key is
`__proto__`, and leaves the others. -/
theorem set_own (o : Obj) (k : String) (hk : k ≠ "__proto__") (e : Record) :
    (uniqueId e = k → ((o.set (uniqueId e) e).own k) = some e) ∧
    (¬ uniqueId e = k → ((o.set (uniqueId e) e).own k) = o.own k) := by
  constructor
  · intro h
    subst h
    simp [Obj.set, hk]
  · intro h
    by_cases hp : uniqueId e = "__proto__"
    · simp [Obj.set, hp]
    · simp [Obj.set, hp, Ne.symm h]

/-- An assignment to `__proto__` sets the prototype; any other leaves it. -/
theorem set_proto (o : Obj) (e : Record) :
    (uniqueId e = "__proto__" → (o.set (uniqueId e) e).proto = some e) ∧
    (¬ uniqueId e = "__proto__" → (o.set (uniqueId e) e).proto = o.proto) := by
  constructor
  · intro h
    simp [Obj.set, h]
  · intro h
    simp [Obj.set, h]

/-- No assignment creates an own property `__proto__`. -/
theorem set_own_proto (o : Obj) (e : Record) :
    (o.set (uniqueId e) e).own "__proto__" = o.own "__proto__" := by
  by_cases hp : uniqueId e = "__proto__"
  · simp [Obj.set, hp]
  · simp [Obj.set, hp, Ne.symm hp]

/-- No incoming record carries the key: `dataAsObj` has no such own
property. -/
theorem buildObj_own_of_absent (k : String) (hk : k ≠ "__proto__") (states : List Record)
    (h : ∀ r ∈ states, uniqueId r ≠ k) : (buildObj states).own k = none :=
  (foldl_last_hit (fun o e => o.set (uniqueId e) e) (fun o => o.own k)
    (fun e => uniqueId e = k) (fun o e => set_own o k hk e) states Obj.empty).1 h

/-- Some incoming record carries the key: the own property holds the last
one. -/
theorem buildObj_own_of_present (k : String) (hk : k ≠ "__proto__") (states : List Record)
    (h : ∃ r ∈ states, uniqueId r = k) :
    ∃ pre r post, states = pre ++ r :: post ∧ uniqueId r = k ∧
      (∀ q ∈ post, uniqueId q ≠ k) ∧ (buildObj states).own k = some r :=
  (foldl_last_hit (fun o e => o.set (uniqueId e) e) (fun o => o.own k)
    (fun e => uniqueId e = k) (fun o e => set_own o k hk e) states Obj.empty).2 h

/-- No incoming record is filed under `__proto__`: the prototype of
`dataAsObj` is still `Object.prototype`. -/
theorem buildObj_proto_of_absent (states : List Record)
    (h : ∀ r ∈ states, uniqueId r ≠ "__proto__") : (buildObj states).proto = none :=
  (foldl_last_hit (fun o e => o.set (uniqueId e) e) (fun o => o.proto)
    (fun e => uniqueId e = "__proto__") (fun o e => set_proto o e) states Obj.empty).1 h

/-- Some incoming record is filed under `__proto__`: the last one is the
prototype of `dataAsObj`. -/
theorem buildObj_proto_of_present (states : List Record)
    (h : ∃ r ∈ states, uniqueId r = "__proto__") :
    ∃ pre r post, states = pre ++ r :: post ∧ uniqueId r = "__proto__" ∧
      (∀ q ∈ post, uniqueId q ≠ "__proto__") ∧ (buildObj states).proto = some r :=
  (foldl_last_hit (fun o e => o.set (uniqueId e) e) (fun o => o.proto)
    (fun e => uniqueId e = "__proto__") (fun o e => set_proto o e) states Obj.empty).2 h

/-- An own property is an incoming record filed under that key. -/
theorem buildObj_own_some (k : String) (hk : k ≠ "__proto__") (states : List Record)
    (r : Record) (h : (buildObj states).own k = some r) : r ∈ states ∧ uniqueId r = k := by
  by_cases hex : ∃ q ∈ states, uniqueId q = k
  · obtain ⟨pre, q, post, hsplit, hq, _, hval⟩ := buildObj_own_of_present k hk states hex
    have hqr : q = r := by rw [hval] at h; exact Option.some.inj h
    subst hqr
    exact ⟨by simp [hsplit], hq⟩
  · have hnone : ∀ q ∈ states, uniqueId q ≠ k := fun q hq hk2 => hex ⟨q, hq, hk2⟩
    rw [buildObj_own_of_absent k hk states hnone] at h
    exact absurd h (by simp)

/-- The read of a name other than `__proto__` that is an own property. -/
theorem get_of_own (o : Obj) (k : String) (hk : k ≠ "__proto__") (r : Record)
    (h : o.own k = some r) : o.get (Key.name k) = some (Value.record r) := by
  simp [Obj.get, hk, h]

/-- The read of a plain name that is no own property, on the prototype
`Object.prototype`: `undefined`. -/
theorem get_of_plain (o : Obj) (k : String) (hk : PlainKey k)
    (hown : o.own k = none) (hproto : o.proto = none) : o.get (Key.name k) = none := by
  simp [Obj.get, hk.1, hown, hproto, objectPrototypeGet, hk.2]

/-- On string identifiers, as the feed sends them, the keys of two records
agree exactly when the identifiers do. -/
theorem uniqueId_str (a b : String) (ra rb : List Field) :
    uniqueId (Field.str a :: ra) = uniqueId (Field.str b :: rb) ↔ a = b := by
  simp [uniqueId, toPropertyKey, DATA_INDEX.UNIQUE_ID]

/-- The slot function of `data.map(...)`. -/
theorem reconcile_some (data : List Value) (incoming : List Record) :
    reconcile (some data) incoming =
      data.map (fun entry =>
        match (buildObj incoming).get (entryKey entry) with
        | some found => if found.truthy then found else entry
        | none => entry) := rfl

/-- The slot of a held record whose plain identifier no incoming record
carries, when no incoming record is filed under `__proto__`: the record
itself. -/
theorem slot_of_absent (incoming : List Record) (p : Record)
    (hinc : ∀ r ∈ incoming, uniqueId r ≠ "__proto__") (hp : PlainKey (uniqueId p))
    (hnone : ∀ r ∈ incoming, uniqueId r ≠ uniqueId p) :
    (match (buildObj incoming).get (entryKey (Value.record p)) with
      | some found => if found.truthy then found else Value.record p
      | none => Value.record p) = Value.record p := by
  have hget := get_of_plain (buildObj incoming) (uniqueId p) hp
    (buildObj_own_of_absent (uniqueId p) hp.1 incoming hnone)
    (buildObj_proto_of_absent incoming hinc)
  simp only [entryKey]
  rw [hget]

/-- The slot of a held record whose identifier, other than `__proto__`, some
incoming record carries: the last such incoming record. -/
theorem slot_of_present (incoming : List Record) (p : Record)
    (hp : uniqueId p ≠ "__proto__") (hex : ∃ r ∈ incoming, uniqueId r = uniqueId p) :
    ∃ pre r post, incoming = pre ++ r :: post ∧ uniqueId r = uniqueId p ∧
      (∀ q ∈ post, uniqueId q ≠ uniqueId p) ∧
      (match (buildObj incoming).get (entryKey (Value.record p)) with
        | some found => if found.truthy then found else Value.record p
        | none => Value.record p) = Value.record r := by
  obtain ⟨pre, r, post, hsplit, hk, hpost, hval⟩ :=
    buildObj_own_of_present (uniqueId p) hp incoming hex
  refine ⟨pre, r, post, hsplit, hk, hpost, ?_⟩
  simp only [entryKey]
  rw [get_of_own (buildObj incoming) (uniqueId p) hp r hval]
  rfl

/-! ## Claims on reconciliation -/

/-- The slots of a held set whose identifiers are plain names, against a
snapshot with no identifier `__proto__`: the reconciled sequence has the
length of the held set; slot `i` holds the last incoming record with the
identifier of `previous[i]` when there is one, and `previous[i]` otherwise;
every entry is a record with an identifier of the held set. -/
theorem reconcile_slots_plain (previous incoming : List Record)
    (hprev : ∀ p ∈ previous, PlainKey (uniqueId p))
    (hinc : ∀ r ∈ incoming, uniqueId r ≠ "__proto__") :
    (reconcile (some (held previous)) incoming).length = previous.length ∧
    (∀ (i : Nat) (p : Record), previous[i]? = some p →
      ((∃ r ∈ incoming, uniqueId r = uniqueId p) →
        ∃ pre r post, incoming = pre ++ r :: post ∧ uniqueId r = uniqueId p ∧
          (∀ q ∈ post, uniqueId q ≠ uniqueId p) ∧
          (reconcile (some (held previous)) incoming)[i]? = some (Value.record r)) ∧
      ((∀ r ∈ incoming, uniqueId r ≠ uniqueId p) →
        (reconcile (some (held previous)) incoming)[i]? = some (Value.record p))) ∧
    (∀ v ∈ reconcile (some (held previous)) incoming,
      ∃ r, v = Value.record r ∧ ∃ p ∈ previous, uniqueId r = uniqueId p) := by
  refine ⟨by simp [reconcile_some, held], ?_, ?_⟩
  · intro i p hp
    have hmem : p ∈ previous := List.getElem?_mem hp
    constructor
    · intro hex
      obtain ⟨pre, r, post, hsplit, hk, hpost, hval⟩ :=
        slot_of_present incoming p (hprev p hmem).1 hex
      refine ⟨pre, r, post, hsplit, hk, hpost, ?_⟩
      simp only [reconcile_some, held, List.map_map, List.getElem?_map, hp, Option.map_some',
        Function.comp]
      rw [hval]
    · intro hnone
      simp only [reconcile_some, held, List.map_map, List.getElem?_map, hp, Option.map_some',
        Function.comp]
      rw [slot_of_absent incoming p hinc (hprev p hmem) hnone]
  · intro v hv
    simp only [reconcile_some, held, List.map_map, List.mem_map, Function.comp] at hv
    obtain ⟨p, hp, hpv⟩ := hv
    by_cases hex : ∃ r ∈ incoming, uniqueId r = uniqueId p
    · obtain ⟨_, r, _, _, hk, _, hval⟩ := slot_of_present incoming p (hprev p hp).1 hex
      rw [hval] at hpv
      exact ⟨r, hpv.symm, p, hp, hk⟩
    · have hnone : ∀ r ∈ incoming, uniqueId r ≠ uniqueId p := fun r hr hk => hex ⟨r, hr, hk⟩
      rw [slot_of_absent incoming p hinc (hprev p hp) hnone] at hpv
      exact ⟨p, hpv.symm, p, hp, rfl⟩

/-- C1 fails on the code. The example of the specification evaluates as
stated, but a held record whose identifier names a member of the object
prototype does not keep its slot when no incoming record carries that
identifier: the slot takes the inherited function. And a snapshot with the
identifier `__proto__` puts its record in the prototype chain, so that slots
take fields of that record, which are no entities of the held set. -/
theorem reconcile_slot_inherited :
    reconcile (some (held [[Field.num 1, Field.str "AB1"], [Field.num 2, Field.str "CD2"]]))
        [[Field.num 2, Field.str "CD2-new"], [Field.num 3, Field.str "EF3"]]
      = held [[Field.num 1, Field.str "AB1"], [Field.num 2, Field.str "CD2-new"]] ∧
    (∀ r ∈ [[Field.num 3, Field.str "z"]],
      uniqueId r ≠ uniqueId [Field.str "constructor", Field.str "x"]) ∧
    reconcile (some (held [[Field.str "constructor", Field.str "x"], [Field.num 2, Field.str "y"]]))
        [[Field.num 3, Field.str "z"]]
      = [Value.member Home.objectPrototype "constructor",
         Value.record [Field.num 2, Field.str "y"]] ∧
    reconcile
        (some (held [[Field.num 0, Field.str "old"], [Field.num 1, Field.str "old1"],
          [Field.num 5, Field.str "five"]]))
        [[Field.str "__proto__", Field.str "zz"]]
      = [Value.string "__proto__", Value.string "zz",
         Value.record [Field.num 5, Field.str "five"]] := by
  decide

/-- C2: with no held set (`data` is `null`), reconciliation returns the
incoming sequence unchanged, and the first successful cycle of a mounted
component stores exactly that sequence. -/
theorem reconcile_first_population (incoming : List Record) :
    reconcile none incoming = held incoming ∧
    (reconcile none incoming).length = incoming.length ∧
    ∀ b : Bool,
      (step (mount b) (Event.settle (Outcome.resolved (some { states := some incoming })))).data
        = some (held incoming) := by
  refine ⟨rfl, by simp [reconcile], ?_⟩
  intro b
  cases b <;> rfl

/-- C3: a held set whose identifiers are pairwise distinct, reconciled
against itself, is returned as it is. -/
theorem reconcile_self (previous : List Record)
    (huniq : (previous.map uniqueId).Nodup) :
    reconcile (some (held previous)) previous = held previous := by
  have hinj : ∀ a ∈ previous, ∀ b ∈ previous, uniqueId a = uniqueId b → a = b :=
    List.inj_on_of_nodup_map huniq
  rw [reconcile_some]
  unfold held
  rw [List.map_map]
  apply List.map_congr_left
  intro p hp
  simp only [Function.comp]
  by_cases hk : uniqueId p = "__proto__"
  · obtain ⟨pre, r, post, hsplit, hr, _, hval⟩ :=
      buildObj_proto_of_present previous ⟨p, hp, hk⟩
    have hrp : r = p := hinj r (by simp [hsplit]) p hp (hr.trans hk.symm)
    simp only [entryKey, hk, Obj.get, if_true, hval, hrp]
    rfl
  · obtain ⟨pre, r, post, hsplit, hr, _, hval⟩ := slot_of_present previous p hk ⟨p, hp, rfl⟩
    have hrp : r = p := hinj r (by simp [hsplit]) p hp hr
    rw [hval, hrp]

/-- C3 at a two-record set. -/
theorem reconcile_self_witness :
    reconcile (some (held [[Field.num 1, Field.str "AB1"], [Field.num 2, Field.str "CD2"]]))
        [[Field.num 1, Field.str "AB1"], [Field.num 2, Field.str "CD2"]]
      = held [[Field.num 1, Field.str "AB1"], [Field.num 2, Field.str "CD2"]] :=
  reconcile_self _ (by decide)

/-- Without distinct identifiers the set is not returned as it is: of two
records filed under one key, the later one takes both slots. -/
theorem reconcile_self_duplicate :
    reconcile (some (held [[Field.num 1, Field.str "a"], [Field.num 1, Field.str "b"]]))
        [[Field.num 1, Field.str "a"], [Field.num 1, Field.str "b"]]
      = held [[Field.num 1, Field.str "b"], [Field.num 1, Field.str "b"]] := by
  decide

/-- A held set of plain identifiers, none of which occurs in a snapshot
without the identifier `__proto__`, is returned as it is. -/
theorem reconcile_disjoint_plain (previous incoming : List Record)
    (hprev : ∀ p ∈ previous, PlainKey (uniqueId p))
    (hinc : ∀ r ∈ incoming, uniqueId r ≠ "__proto__")
    (hdisj : ∀ p ∈ previous, ∀ r ∈ incoming, uniqueId r ≠ uniqueId p) :
    reconcile (some (held previous)) incoming = held previous := by
  rw [reconcile_some]
  unfold held
  rw [List.map_map]
  apply List.map_congr_left
  intro p hp
  simp only [Function.comp]
  exact slot_of_absent incoming p hinc (hprev p hp) (hdisj p hp)

/-- C4 fails on the code: the identifiers of the held set `toString`, `2`
and of the snapshot `3` are disjoint, yet slot 0 of the reconciled sequence
is the inherited function `toString`, not the held record. -/
theorem reconcile_disjoint_inherited :
    (∀ p ∈ [[Field.str "toString", Field.str "x"], [Field.num 2, Field.str "y"]],
      ∀ r ∈ [[Field.num 3, Field.str "z"]], uniqueId r ≠ uniqueId p) ∧
    reconcile (some (held [[Field.str "toString", Field.str "x"], [Field.num 2, Field.str "y"]]))
        [[Field.num 3, Field.str "z"]]
      = [Value.member Home.objectPrototype "toString",
         Value.record [Field.num 2, Field.str "y"]] ∧
    reconcile (some (held [[Field.str "toString", Field.str "x"], [Field.num 2, Field.str "y"]]))
        [[Field.num 3, Field.str "z"]]
      ≠ held [[Field.str "toString", Field.str "x"], [Field.num 2, Field.str "y"]] := by
  decide

/-- C5, as stated, fails on the example of the specification: the reconciled
sequence holds the stale record of identifier 1, which is no record of the
incoming snapshot. -/
theorem reconcile_only_incoming_counterexample :
    Value.record [Field.num 1, Field.str "AB1"] ∈
      reconcile (some (held [[Field.num 1, Field.str "AB1"], [Field.num 2, Field.str "CD2"]]))
        [[Field.num 2, Field.str "CD2-new"], [Field.num 3, Field.str "EF3"]] ∧
    [Field.num 1, Field.str "AB1"] ∉
      [[Field.num 2, Field.str "CD2-new"], [Field.num 3, Field.str "EF3"]] := by
  decide

/-- C5, amended: for a held set whose identifiers name no member of the
object prototype and a snapshot with no identifier `__proto__`, every entry
of the reconciled sequence is a record of `incoming` or a record of the held
set, and a held record whose identifier has vanished from `incoming` is
retained unchanged at its slot. -/
theorem reconcile_invents_nothing (previous : Option (List Record)) (incoming : List Record)
    (hprev : ∀ set, previous = some set → ∀ p ∈ set, PlainKey (uniqueId p))
    (hinc : ∀ r ∈ incoming, uniqueId r ≠ "__proto__") :
    (∀ v ∈ reconcile (previous.map held) incoming,
      ∃ r, v = Value.record r ∧ (r ∈ incoming ∨ ∃ set, previous = some set ∧ r ∈ set)) ∧
    (∀ (set : List Record) (i : Nat) (p : Record), previous = some set →
      set[i]? = some p → (∀ r ∈ incoming, uniqueId r ≠ uniqueId p) →
      (reconcile (previous.map held) incoming)[i]? = some (Value.record p)) := by
  constructor
  · intro v hv
    cases previous with
    | none =>
      simp only [Option.map_none', reconcile, List.mem_map] at hv
      obtain ⟨r, hr, hrv⟩ := hv
      exact ⟨r, hrv.symm, Or.inl hr⟩
    | some set =>
      simp only [Option.map_some', reconcile_some, held, List.map_map, List.mem_map,
        Function.comp] at hv
      obtain ⟨p, hp, hpv⟩ := hv
      have hplain := hprev set rfl p hp
      by_cases hex : ∃ r ∈ incoming, uniqueId r = uniqueId p
      · obtain ⟨pre, r, post, hsplit, _, _, hval⟩ := slot_of_present incoming p hplain.1 hex
        rw [hval] at hpv
        exact ⟨r, hpv.symm, Or.inl (by simp [hsplit])⟩
      · have hnone : ∀ r ∈ incoming, uniqueId r ≠ uniqueId p := fun r hr hk => hex ⟨r, hr, hk⟩
        rw [slot_of_absent incoming p hinc hplain hnone] at hpv
        exact ⟨p, hpv.symm, Or.inr ⟨set, rfl, hp⟩⟩
  · intro set i p hset hp hnone
    subst hset
    have hplain := hprev set rfl p (List.getElem?_mem hp)
    simp only [Option.map_some', reconcile_some, held, List.map_map, List.getElem?_map, hp,
      Function.comp]
    rw [slot_of_absent incoming p hinc hplain hnone]

/-- C5, amended, at a held set whose only entity has left the feed. -/
theorem reconcile_invents_nothing_witness :
    (reconcile (some (held [[Field.num 1, Field.str "AB1"]])) [])[0]?
      = some (Value.record [Field.num 1, Field.str "AB1"]) :=
  (reconcile_invents_nothing (some [[Field.num 1, Field.str "AB1"]]) []
    (fun set hset p hp => by
      cases hset
      rw [List.mem_singleton] at hp
      subst hp
      exact ⟨by decide, by decide⟩)
    (by decide)).2
    [[Field.num 1, Field.str "AB1"]] 0 [Field.num 1, Field.str "AB1"] rfl rfl (by decide)

/-! ## Claims on the polling effect -/

/-- The handler after the cleanup: the guard `timer.id !== null` fails, so
nothing is done with the response. -/
theorem onResponse_of_null (s : Root) (resp : Option Response)
    (h : s.timer.id = TimerId.null) : onResponse s resp = s := by
  unfold onResponse
  split
  · simp [h]
  · rfl

/-- A response without a truthy `states` field: the handler does nothing. -/
theorem onResponse_no_states (s : Root) : onResponse s (some { states := none }) = s := rfl

/-- A fulfilled chain of a pending fetch: the handler, then `.finally`. -/
theorem step_settle_resolved (s : Root) (resp : Option Response) (hp : s.pending = true) :
    step s (Event.settle (Outcome.resolved resp))
      = onFinally (onResponse { s with pending := false } resp) := by
  simp [step, hp]

/-- A rejected chain of a pending fetch: `.finally` alone. -/
theorem step_settle_rejected (s : Root) (hp : s.pending = true) :
    step s (Event.settle Outcome.rejected) = onFinally { s with pending := false } := by
  simp [step, hp]

/-- Nothing settles when no fetch is pending. -/
theorem step_settle_idle (s : Root) (o : Outcome) (hp : s.pending = false) :
    step s (Event.settle o) = s := by
  simp [step, hp]

/-- Unmounting a mounted component runs the cleanup. -/
theorem step_unmount (s : Root) (hm : s.mounted = true) :
    step s Event.unmount = cleanup { s with mounted := false } := by
  simp [step, hm]

/-- An elapsed timeout of an unmounted component is only removed. -/
theorem step_fire_unmounted (s : Root) (h : Nat) (hm : s.mounted = false) :
    step s (Event.fire h) = s ∨
    step s (Event.fire h) = { s with timeouts := s.timeouts.filter (fun t => t.1 ≠ h) } := by
  by_cases ha : s.timeouts.any (fun t => t.1 = h) = true
  · right
    simp only [step, ha, if_true, onTimeout, hm]
    rfl
  · left
    simp only [step, ha]
    rfl

/-- A transition of a stopped component (unmounted, `timer.id` set to `null`)
leaves it stopped and invokes no update callback. -/
theorem step_stopped (s : Root) (e : Event)
    (hm : s.mounted = false) (hid : s.timer.id = TimerId.null) :
    (step s e).mounted = false ∧ (step s e).timer.id = TimerId.null ∧
    (step s e).calls = s.calls ∧ (step s e).data = s.data := by
  cases e with
  | settle o =>
    cases hp : s.pending with
    | false =>
      rw [step_settle_idle s o hp]
      exact ⟨hm, hid, rfl, rfl⟩
    | true =>
      cases o with
      | resolved resp =>
        rw [step_settle_resolved s resp hp,
          onResponse_of_null { s with pending := false } resp hid]
        exact ⟨hm, hid, rfl, rfl⟩
      | rejected =>
        rw [step_settle_rejected s hp]
        exact ⟨hm, hid, rfl, rfl⟩
  | fire h =>
    rcases step_fire_unmounted s h hm with heq | heq <;> rw [heq]
    · exact ⟨hm, hid, rfl, rfl⟩
    · exact ⟨hm, hid, rfl, rfl⟩
  | unmount =>
    have heq : step s Event.unmount = s := by simp [step, hm]
    rw [heq]
    exact ⟨hm, hid, rfl, rfl⟩

/-- No sequence of transitions of a stopped component invokes an update
callback. -/
theorem run_stopped (events : List Event) (s : Root)
    (hm : s.mounted = false) (hid : s.timer.id = TimerId.null) :
    (run s events).calls = s.calls ∧ (run s events).data = s.data := by
  induction events generalizing s with
  | nil => exact ⟨rfl, rfl⟩
  | cons e t ih =>
    obtain ⟨hm1, hid1, hc, hd⟩ := step_stopped s e hm hid
    obtain ⟨hc2, hd2⟩ := ih (step s e) hm1 hid1
    exact ⟨hc2.trans hc, hd2.trans hd⟩

/-- C6: when the cleanup (stop) runs while the fetch is pending, the later
resolution of the fetch with any response runs the chain to its end without
invoking `setData` or `onDataLoad`, and so does every later transition: the
update callbacks are never invoked after stop and the held set is unchanged. -/
theorem stop_discards_late_result (s : Root) (resp : Option Response) (later : List Event)
    (hm : s.mounted = true) (hp : s.pending = true) :
    (step (step s Event.unmount) (Event.settle (Outcome.resolved resp))).pending = false ∧
    (step (step s Event.unmount) (Event.settle (Outcome.resolved resp))).timer.nextTimeoutId
      = some s.nextHandle ∧
    (run (step s Event.unmount) (Event.settle (Outcome.resolved resp) :: later)).calls
      = s.calls ∧
    (run (step s Event.unmount) (Event.settle (Outcome.resolved resp) :: later)).data
      = s.data := by
  have hid1 : (cleanup { s with mounted := false }).timer.id = TimerId.null := rfl
  have hp1 : (cleanup { s with mounted := false }).pending = true := hp
  obtain ⟨hc2, hd2⟩ :=
    run_stopped (Event.settle (Outcome.resolved resp) :: later)
      (cleanup { s with mounted := false }) rfl hid1
  rw [step_unmount s hm]
  refine ⟨?_, ?_, hc2, hd2⟩
  · rw [step_settle_resolved _ resp hp1, onResponse_of_null]
    · rfl
    · rfl
  · rw [step_settle_resolved _ resp hp1, onResponse_of_null]
    · rfl
    · rfl

/-- C6 at a freshly mounted component stopped before its first response,
which carries one record. -/
theorem stop_discards_late_result_witness :
    (run (step (mount true) Event.unmount)
      [Event.settle (Outcome.resolved (some { states := some [[Field.num 1]] }))]).calls = [] ∧
    (run (step (mount true) Event.unmount)
      [Event.settle (Outcome.resolved (some { states := some [[Field.num 1]] }))]).data = none :=
  (stop_discards_late_result (mount true) (some { states := some [[Field.num 1]] }) []
    rfl rfl).2.2

/-- Without the cleanup the same response is an update: both callbacks are
invoked with the reconciled sequence. -/
theorem resolve_updates (b : Bool) (incoming : List Record) :
    (step (mount b) (Event.settle (Outcome.resolved (some { states := some incoming })))).calls
      = if b then [Call.setData (held incoming), Call.onDataLoad incoming.length]
        else [Call.setData (held incoming)] := by
  cases b <;> simp [step, mount, onResponse, onFinally, reconcile, held]

/-- C7 fails on the code: when the cleanup (stop) runs while the fetch is
pending, the completion of the fetch, fulfilled or rejected, still runs
`.finally`, which arms a timeout of `REFRESH_TIME` on the stopped component. -/
theorem finally_rearms_after_stop (s : Root) (o : Outcome)
    (hm : s.mounted = true) (hp : s.pending = true) :
    (step s Event.unmount).timer.id = TimerId.null ∧
    (step (step s Event.unmount) (Event.settle o)).timeouts
      = clearTimeout s.timeouts s.timer.nextTimeoutId ++ [(s.nextHandle, REFRESH_TIME)] ∧
    (step (step s Event.unmount) (Event.settle o)).timeouts ≠ [] := by
  have hp1 : (cleanup { s with mounted := false }).pending = true := hp
  have key : (step (step s Event.unmount) (Event.settle o)).timeouts
      = clearTimeout s.timeouts s.timer.nextTimeoutId ++ [(s.nextHandle, REFRESH_TIME)] := by
    rw [step_unmount s hm]
    cases o with
    | resolved resp =>
      rw [step_settle_resolved _ resp hp1, onResponse_of_null]
      · rfl
      · rfl
    | rejected =>
      rw [step_settle_rejected _ hp1]
      rfl
  refine ⟨?_, key, ?_⟩
  · rw [step_unmount s hm]
    rfl
  · rw [key]
    simp

/-- C7 at a freshly mounted component stopped before its first response: the
late response leaves the timeout with handle 1 armed for 30000 ms. -/
theorem finally_rearms_after_stop_witness :
    (run (mount true)
      [Event.unmount,
       Event.settle (Outcome.resolved (some { states := some [[Field.num 1]] }))]).timeouts
      = [(1, 30000)] :=
  (finally_rearms_after_stop (mount true)
    (Outcome.resolved (some { states := some [[Field.num 1]] })) rfl rfl).2.1

/-- C8, as stated, fails at the first cycle of a mounted component: a body
without `states` leaves the held set absent and invokes no callback, whereas
an empty snapshot stores the empty sequence and invokes both callbacks. -/
theorem missing_states_counterexample :
    (step (mount true) (Event.settle (Outcome.resolved (some { states := none })))).data
      = none ∧
    (step (mount true) (Event.settle (Outcome.resolved (some { states := none })))).calls
      = [] ∧
    (step (mount true) (Event.settle (Outcome.resolved (some { states := some [] })))).data
      = some (reconcile none []) ∧
    (step (mount true) (Event.settle (Outcome.resolved (some { states := some [] })))).calls
      = [Call.setData [], Call.onDataLoad 0] ∧
    step (mount true) (Event.settle (Outcome.resolved (some { states := none })))
      ≠ step (mount true) (Event.settle (Outcome.resolved (some { states := some [] }))) := by
  decide

/-- The handler touches only the held set and the trace of callbacks. -/
theorem onResponse_frame (s : Root) (resp : Option Response) :
    (onResponse s resp).mounted = s.mounted ∧ (onResponse s resp).timer = s.timer ∧
    (onResponse s resp).pending = s.pending ∧ (onResponse s resp).timeouts = s.timeouts ∧
    (onResponse s resp).nextHandle = s.nextHandle ∧
    (onResponse s resp).captured = s.captured := by
  unfold onResponse
  split
  · split
    · split <;> exact ⟨rfl, rfl, rfl, rfl, rfl, rfl⟩
    · exact ⟨rfl, rfl, rfl, rfl, rfl, rfl⟩
  · exact ⟨rfl, rfl, rfl, rfl, rfl, rfl⟩

/-- The end of a cycle, however the fetch settled: the fetch is no longer
pending and `.finally` has armed one more timeout. -/
theorem step_settle_timeouts (s : Root) (o : Outcome) (hp : s.pending = true) :
    (step s (Event.settle o)).pending = false ∧
    (step s (Event.settle o)).mounted = s.mounted ∧
    (step s (Event.settle o)).timeouts = s.timeouts ++ [(s.nextHandle, REFRESH_TIME)] ∧
    (step s (Event.settle o)).timer.nextTimeoutId = some s.nextHandle := by
  cases o with
  | resolved resp =>
    obtain ⟨h1, h2, h3, h4, h5, _⟩ := onResponse_frame { s with pending := false } resp
    rw [step_settle_resolved s resp hp]
    simp only [onFinally, h1, h2, h3, h4, h5]
    exact ⟨trivial, trivial, trivial, trivial⟩
  | rejected =>
    rw [step_settle_rejected s hp]
    exact ⟨rfl, rfl, rfl, rfl⟩

/-- Every transition keeps the invariant on timeouts. -/
theorem step_timerInv (s : Root) (e : Event) (hinv : TimerInv s) : TimerInv (step s e) := by
  obtain ⟨hpend, hidle⟩ := hinv
  cases e with
  | settle o =>
    cases hp : s.pending with
    | false =>
      rw [step_settle_idle s o hp]
      exact ⟨hpend, hidle⟩
    | true =>
      obtain ⟨h1, _, h3, h4⟩ := step_settle_timeouts s o hp
      obtain ⟨ht, _⟩ := hpend hp
      refine ⟨fun h => ?_, fun _ => Or.inr ⟨s.nextHandle, ?_, h4⟩⟩
      · rw [h1] at h
        exact absurd h (by simp)
      · rw [h3, ht]
        rfl
  | fire h =>
    by_cases ha : s.timeouts.any (fun t => t.1 = h) = true
    · have hne : s.timeouts ≠ [] := by
        intro hnil
        rw [hnil] at ha
        simp at ha
      cases hp : s.pending with
      | true => exact absurd (hpend hp).1 hne
      | false =>
        rcases hidle hp with hnil | ⟨h0, ht, hn⟩
        · exact absurd hnil hne
        · have hh : h0 = h := by
            rw [ht] at ha
            simpa using ha
          subst hh
          have hfil : s.timeouts.filter (fun t => t.1 ≠ h0) = [] := by
            rw [ht]
            simp
          cases hm : s.mounted with
          | true =>
            have heq : (step s (Event.fire h0)).pending = true ∧
                (step s (Event.fire h0)).timeouts = [] ∧
                (step s (Event.fire h0)).timer.nextTimeoutId = none := by
              simp only [step, ha, if_true, onTimeout, hm, runEffect, cleanup, hfil, hn,
                clearTimeout]
              exact ⟨trivial, by simp, trivial⟩
            refine ⟨fun _ => ⟨heq.2.1, heq.2.2⟩, fun hf => ?_⟩
            rw [heq.1] at hf
            exact absurd hf (by simp)
          | false =>
            have heq : (step s (Event.fire h0)).pending = false ∧
                (step s (Event.fire h0)).timeouts = [] := by
              simp only [step, ha, if_true, onTimeout, hm, hfil]
              exact ⟨hp, by simp⟩
            refine ⟨fun hf => ?_, fun _ => Or.inl heq.2⟩
            rw [heq.1] at hf
            exact absurd hf (by simp)
    · have heq : step s (Event.fire h) = s := by simp [step, ha]
      rw [heq]
      exact ⟨hpend, hidle⟩
  | unmount =>
    cases hm : s.mounted with
    | false =>
      have heq : step s Event.unmount = s := by simp [step, hm]
      rw [heq]
      exact ⟨hpend, hidle⟩
    | true =>
      rw [step_unmount s hm]
      cases hp : s.pending with
      | true =>
        obtain ⟨ht, hn⟩ := hpend hp
        refine ⟨fun _ => ⟨?_, hn⟩, fun hf => ?_⟩
        · simp [cleanup, clearTimeout, ht, hn]
        · simp [cleanup] at hf
      | false =>
        refine ⟨fun hf => ?_, fun _ => Or.inl ?_⟩
        · simp [cleanup] at hf
        · rcases hidle hp with hnil | ⟨h0, ht, hn⟩
          · cases hnx : s.timer.nextTimeoutId <;> simp [cleanup, clearTimeout, hnil, hnx]
          · simp [cleanup, clearTimeout, ht, hn]

/-- The invariant on timeouts holds in every reachable state. -/
theorem reachable_timerInv (s : Root) (hr : Reachable s) : TimerInv s := by
  obtain ⟨b, events, rfl⟩ := hr
  have hgen : ∀ (es : List Event) (t : Root), TimerInv t → TimerInv (run t es) := by
    intro es
    induction es with
    | nil => intro t ht; exact ht
    | cons e rest ih => intro t ht; exact ih (step t e) (step_timerInv t e ht)
  apply hgen
  refine ⟨fun _ => ⟨rfl, rfl⟩, fun hf => ?_⟩
  exact absurd hf (by simp [mount])

/-- C8, amended: a parsed body without `states` yields no update, exactly as
a failed fetch does. The held set is left as it was: absent when no set is
held, and otherwise, for identifiers that name no member of the object
prototype, equal to `reconcile(previous, [])`. No update callback is
invoked, and exactly one timeout of `REFRESH_TIME` is left armed. -/
theorem missing_states_no_update (s : Root)
    (hr : Reachable s) (hp : s.pending = true) :
    step s (Event.settle (Outcome.resolved (some { states := none })))
      = step s (Event.settle Outcome.rejected) ∧
    (step s (Event.settle (Outcome.resolved (some { states := none })))).data = s.data ∧
    (step s (Event.settle (Outcome.resolved (some { states := none })))).calls = s.calls ∧
    (step s (Event.settle (Outcome.resolved (some { states := none })))).pending = false ∧
    (step s (Event.settle (Outcome.resolved (some { states := none })))).timeouts
      = [(s.nextHandle, REFRESH_TIME)] ∧
    (∀ previous : List Record, (∀ p ∈ previous, PlainKey (uniqueId p)) →
      reconcile (some (held previous)) [] = held previous) := by
  obtain ⟨ht, _⟩ := (reachable_timerInv s hr).1 hp
  rw [step_settle_resolved s _ hp, onResponse_no_states, step_settle_rejected s hp]
  refine ⟨rfl, rfl, rfl, rfl, ?_, ?_⟩
  · simp [onFinally, ht]
  · intro previous hprev
    rw [reconcile_some]
    unfold held
    rw [List.map_map]
    apply List.map_congr_left
    intro p hp
    simp only [Function.comp]
    exact slot_of_absent [] p (fun r hr => absurd hr (List.not_mem_nil r)) (hprev p hp)
      (fun r hr => absurd hr (List.not_mem_nil r))

/-- C8, amended, at the first cycle of a mounted component. -/
theorem missing_states_no_update_witness :
    (step (mount true) (Event.settle (Outcome.resolved (some { states := none })))).data
      = none ∧
    (step (mount true) (Event.settle (Outcome.resolved (some { states := none })))).calls
      = [] ∧
    (step (mount true) (Event.settle (Outcome.resolved (some { states := none })))).timeouts
      = [(1, 30000)] :=
  ⟨(missing_states_no_update (mount true) ⟨true, [], rfl⟩ rfl).2.1,
   (missing_states_no_update (mount true) ⟨true, [], rfl⟩ rfl).2.2.1,
   (missing_states_no_update (mount true) ⟨true, [], rfl⟩ rfl).2.2.2.2.1⟩

/-- C9: in a cycle that has not been stopped, a failure of the network call
or of the parse leaves the held set unchanged, invokes no update callback,
and leaves exactly one timeout armed, of `REFRESH_TIME` milliseconds, the
same as the end of a successful cycle does; when that timeout elapses the
next cycle starts with the held set as it was. -/
theorem fetch_failure_keeps_polling (s : Root)
    (hr : Reachable s) (hm : s.mounted = true) (hp : s.pending = true) :
    (step s (Event.settle Outcome.rejected)).data = s.data ∧
    (step s (Event.settle Outcome.rejected)).calls = s.calls ∧
    (step s (Event.settle Outcome.rejected)).timeouts = [(s.nextHandle, REFRESH_TIME)] ∧
    (∀ resp : Option Response,
      (step s (Event.settle (Outcome.resolved resp))).timeouts
        = (step s (Event.settle Outcome.rejected)).timeouts) ∧
    (step (step s (Event.settle Outcome.rejected)) (Event.fire s.nextHandle)).pending = true ∧
    (step (step s (Event.settle Outcome.rejected)) (Event.fire s.nextHandle)).captured
      = s.data := by
  obtain ⟨ht, _⟩ := (reachable_timerInv s hr).1 hp
  refine ⟨?_, ?_, ?_, ?_, ?_, ?_⟩
  · rw [step_settle_rejected s hp]; rfl
  · rw [step_settle_rejected s hp]; rfl
  · rw [(step_settle_timeouts s Outcome.rejected hp).2.2.1, ht]; rfl
  · intro resp
    rw [(step_settle_timeouts s (Outcome.resolved resp) hp).2.2.1,
      (step_settle_timeouts s Outcome.rejected hp).2.2.1]
  · rw [step_settle_rejected s hp]
    simp [step, onFinally, onTimeout, runEffect, cleanup, hm]
  · rw [step_settle_rejected s hp]
    simp [step, onFinally, onTimeout, runEffect, cleanup, hm]

/-- C9 at the first cycle of a mounted component. -/
theorem fetch_failure_keeps_polling_witness :
    (step (mount true) (Event.settle Outcome.rejected)).timeouts = [(1, 30000)] ∧
    (step (mount true) (Event.settle Outcome.rejected)).calls = [] :=
  ⟨(fetch_failure_keeps_polling (mount true) ⟨true, [], rfl⟩ rfl rfl).2.2.1,
   (fetch_failure_keeps_polling (mount true) ⟨true, [], rfl⟩ rfl rfl).2.1⟩

end NestInterface
